import Mathlib

/-!
Shallow embedding of the hybrid retrieval engine of `src/rag/retrieve.py`
(Tx_Snap_RAG): tokenization, BM25/dense candidate retrieval, score fusion
and reranking, the confidence gate, and the `Retriever` construction and
`retrieve_with_result` orchestration.

Modelling conventions:
* Python floats are modelled as exact rationals (`ℚ`); all the constants in
  the source (0.35, 0.12, 60, ...) are exactly representable.
* The OpenAI embedding client is modelled as an optional fallible function
  `String → Except String (List ℚ)` (composed with the L2 normalization of
  `_embed_query`, whose numeric effect is irrelevant here because the FAISS
  index is abstract).  `None` models an unset `OPENAI_API_KEY`.
* The FAISS index is modelled by its vector count `ntotal` and an abstract
  `search` function returning `(score, row_id)` pairs, exactly the data
  `Retriever._retrieve_dense` consumes.
* `rank_bm25.BM25Okapi` is external to the repository; its constructor is an
  abstract parameter `mkBm25` and its `get_scores` an abstract function held
  in the state, so that only the repository's own logic is concretized.
* Python `dict` accumulators keyed by id are modelled by `buildDict`:
  insertion keeps first position, a later assignment to the same key
  replaces the stored value in place, matching CPython dict semantics.
* Python's `list.sort(key=..., reverse=True)` / `sorted(..., reverse=True)`
  are modelled by `stableSortDesc`, a stable descending insertion sort.
-/

/-- `_tokenize` helper: a character of a maximal `[a-z0-9]+` run
(after lowercasing). -/
def isTokChar (c : Char) : Bool :=
  (('a' ≤ c && c ≤ 'z') || ('0' ≤ c && c ≤ '9'))

/-- Accumulator-based splitter over the lowercased character list. -/
def tokAux : List Char → List Char → List String
  | [], acc => if acc.isEmpty then [] else [String.mk acc.reverse]
  | c :: cs, acc =>
    if isTokChar c then tokAux cs (c :: acc)
    else if acc.isEmpty then tokAux cs [] else String.mk acc.reverse :: tokAux cs []

/-- `_tokenize(text)`: `re.findall(r"[a-z0-9]+", text.lower())`. -/
def _tokenize (text : String) : List String :=
  tokAux (text.toList.map Char.toLower) []

/-- `_rrf(rank, k=60) = 1.0 / (k + rank)`. -/
def _rrf (rank : ℕ) (k : ℕ := 60) : ℚ :=
  1 / ((k : ℚ) + (rank : ℚ))

/-- `Retriever._coverage(query_tokens, text_tokens)`: fraction of distinct
query tokens present in the text's token set (0 for an empty query). -/
def _coverage (query_tokens text_tokens : List String) : ℚ :=
  if query_tokens.isEmpty then 0
  else
    let q := query_tokens.dedup
    ((q.filter (fun w => decide (w ∈ text_tokens))).length : ℚ) / (q.length : ℚ)

/-- A dense candidate as built by `Retriever._retrieve_dense`
(one value of its `out` dict, plus its key). -/
structure DCand where
  id : String
  dense_score : ℚ
  dense_rank : ℕ
  text : String
  row : ℤ
  deriving DecidableEq, Inhabited

/-- A BM25 candidate as built by `Retriever._retrieve_bm25`
(one value of its `out` dict, plus its key). -/
structure BCand where
  id : String
  bm25_score : ℚ
  bm25_rank : ℕ
  text : String
  row : ℤ
  deriving DecidableEq, Inhabited

/-- One entry of the `merged` dict of `Retriever._fuse_and_rerank`:
optional dense `(score, rank)`, optional bm25 `(score, rank)`, and the
payload text / row that survived the `update` calls. -/
structure Cand where
  id : String
  dense : Option (ℚ × ℕ)
  bm25 : Option (ℚ × ℕ)
  text : String
  row : ℤ
  deriving DecidableEq, Inhabited

/-- The frozen `Hit` dataclass (metadata omitted: no claim mentions it). -/
structure Hit where
  score : ℚ
  row : ℤ
  id : String
  text : String
  dense_score : ℚ
  bm25_score : ℚ
  coverage : ℚ
  deriving DecidableEq, Inhabited

/-- The frozen `RetrievalResult` dataclass. -/
structure RetrievalResult where
  hits : List Hit
  mode : String
  should_answer : Bool
  reason : String
  deriving DecidableEq, Inhabited

/-- `v.get("dense_score", 0.0)` on a merged candidate. -/
def candDS (c : Cand) : ℚ := (c.dense.map Prod.fst).getD 0

/-- `v.get("bm25_score", 0.0)` on a merged candidate. -/
def candBS (c : Cand) : ℚ := (c.bm25.map Prod.fst).getD 0

/-- Python `max(l, default=0.0)`. -/
def listMax : List ℚ → ℚ
  | [] => 0
  | x :: xs => xs.foldl max x

/-- `max(..., default=0.0) or 1.0`: the divisor actually used by
`_fuse_and_rerank` (a zero maximum is replaced by 1.0). -/
def maxOr1 (l : List ℚ) : ℚ :=
  if listMax l = 0 then 1 else listMax l

/-- The reciprocal-rank-fusion accumulation of `_fuse_and_rerank`
(lines 265-269): each family contributes `_rrf(rank)` iff its rank key is
present in the merged features. -/
def rrf_term (c : Cand) : ℚ :=
  (match c.dense with | some dr => _rrf dr.2 | none => 0)
    + (match c.bm25 with | some br => _rrf br.2 | none => 0)

/-- One iteration of the scoring loop of `_fuse_and_rerank`: builds the
`Hit` for one merged candidate given the query tokens and the two
(already `or 1.0`-adjusted) normalization divisors. -/
def hitOf (qt : List String) (maxD maxB : ℚ) (c : Cand) : Hit :=
  let ds := candDS c
  let bs := candBS c
  let cov := _coverage qt (_tokenize c.text)
  { score := 0.35 * rrf_term c + 0.30 * (ds / maxD) + 0.20 * (bs / maxB) + 0.15 * cov
    row := c.row
    id := c.id
    text := c.text
    dense_score := ds
    bm25_score := bs
    coverage := cov }

/-- The merged entry for a dense candidate: when a bm25 candidate shares
the id, its fields are `update`d over the dense ones (so its `payload`
text and `row` win). -/
def mergeOne (bm25 : List BCand) (d : DCand) : Cand :=
  match bm25.find? (fun b => b.id == d.id) with
  | some b => ⟨d.id, some (d.dense_score, d.dense_rank), some (b.bm25_score, b.bm25_rank), b.text, b.row⟩
  | none => ⟨d.id, some (d.dense_score, d.dense_rank), none, d.text, d.row⟩

/-- The merged entry for a bm25 candidate absent from the dense dict. -/
def bmOnlyCand (b : BCand) : Cand :=
  ⟨b.id, none, some (b.bm25_score, b.bm25_rank), b.text, b.row⟩

/-- The `merged` dict of `_fuse_and_rerank` in insertion order: dense
candidates first (a shared id also receives the bm25 fields), then
bm25-only candidates. -/
def mergeCands (dense : List DCand) (bm25 : List BCand) : List Cand :=
  dense.map (mergeOne bm25)
  ++ (bm25.filter (fun b => dense.all (fun d => !(d.id == b.id)))).map bmOnlyCand

/-- Insert one element into a descending-sorted list, after every element
with a ≥ key: the insertion step of a stable descending sort. -/
def insertDesc (key : α → ℚ) (x : α) : List α → List α
  | [] => [x]
  | y :: l => if key y < key x then x :: y :: l else y :: insertDesc key x l

/-- Python's stable `sort(key=..., reverse=True)`. -/
def stableSortDesc (key : α → ℚ) (l : List α) : List α :=
  l.foldl (fun acc x => insertDesc key x acc) []

/-- The scored (pre-sort) hit list of `_fuse_and_rerank`, in `merged`
insertion order. -/
def scoredHits (query : String) (dense : List DCand) (bm25 : List BCand) : List Hit :=
  let merged := mergeCands dense bm25
  merged.map (hitOf (_tokenize query) (maxOr1 (merged.map candDS)) (maxOr1 (merged.map candBS)))

/-- `Retriever._fuse_and_rerank`: union the candidate dicts, score every
candidate, stable-sort by score descending, truncate to `top_k`. -/
def _fuse_and_rerank (query : String) (dense : List DCand) (bm25 : List BCand)
    (top_k : ℕ) : List Hit :=
  if (mergeCands dense bm25).isEmpty then []
  else (stableSortDesc (fun h => h.score) (scoredHits query dense bm25)).take top_k

/-- `Retriever._confidence_gate`. -/
def _confidence_gate (hits : List Hit) (mode : String) (min_score : ℚ) : Bool × String :=
  match hits with
  | [] => (false, "no_candidates")
  | top :: rest =>
    let second_score : ℚ := match rest with | [] => 0 | h2 :: _ => h2.score
    let margin := top.score - second_score
    let lexical_ok : Bool := decide ((0.12 : ℚ) ≤ top.coverage) || decide ((0 : ℚ) < top.bm25_score)
    let dense_ok : Bool := decide (min_score ≤ top.dense_score)
    if mode = "bm25-only" then
      if !lexical_ok then (false, "low_lexical_support") else (true, "ok")
    else if mode = "dense-only" then
      if !dense_ok && decide (top.coverage < (0.08 : ℚ)) then (false, "low_dense_support")
      else (true, "ok")
    else
      if !lexical_ok && !dense_ok then (false, "low_hybrid_support")
      else if margin < 0.001 ∧ top.coverage < 0.10 ∧ top.dense_score < min_score + 0.03 then
        (false, "ambiguous_top_hit")
      else (true, "ok")

/-- A Python dict insertion `out[key] = value`: a later assignment to an
existing key replaces the value in place, a fresh key appends. -/
def upsertBy (key : α → String) (out : List α) (c : α) : List α :=
  if out.any (fun x => key x == key c) then
    out.map (fun x => if key x == key c then c else x)
  else out ++ [c]

/-- Accumulate a sequence of insertions into an (initially empty) dict. -/
def buildDict (key : α → String) (l : List α) : List α :=
  l.foldl (upsertBy key) []

/-- The FAISS index as consumed by `_retrieve_dense`: its vector count and
the `(scores, row_ids)` pairs of `index.search` (a row id may be `-1`). -/
structure DenseIndex where
  ntotal : ℕ
  search : List ℚ → ℕ → List (ℚ × ℤ)

/-- A row of `meta.jsonl` (fields used by the engine). -/
structure MetaRow where
  id : String
  text : String

/-- A row of `chunks.jsonl` (fields used by the engine). -/
structure ChunkRow where
  chunk_id : String
  text : String

/-- The state a constructed `Retriever` holds. -/
structure RState where
  metaRows : List MetaRow
  chunkRows : List ChunkRow
  index : Option DenseIndex
  client : Option (String → Except String (List ℚ))
  bm25_ids : List String
  bm25_payloads : List String
  bm25 : Option (List String → List ℚ)
  defaultMinScore : ℚ

/-- `Retriever._payload_for_chunk_id`, reduced to the payload text:
`chunk_by_id` lookup first, then `meta_by_id`, else the empty fallback.
A dict comprehension keyed by stripped id keeps the **last** row for a
repeated key, hence the reversed search. -/
def payload_text (s : RState) (chunk_id : String) : String :=
  match s.chunkRows.reverse.find? (fun r => r.chunk_id.trim == chunk_id) with
  | some r => r.text
  | none =>
    match s.metaRows.reverse.find? (fun r => r.id.trim == chunk_id) with
    | some r => r.text
    | none => ""

/-- The candidate-building loop of `_retrieve_dense` (lines 186-201):
1-based rank over **all** returned pairs, skipping negative row ids,
below-threshold scores and empty chunk ids. -/
def densePairs (s : RState) (pairs : List (ℚ × ℤ)) (min_score : ℚ) : List DCand :=
  pairs.enum.filterMap (fun p =>
    let rank := p.1 + 1
    let score := p.2.1
    let row_id := p.2.2
    if row_id < 0 then none
    else if score < min_score then none
    else
      match s.metaRows.get? row_id.toNat with
      | none => none
      | some mr =>
        let chunk_id := mr.id.trim
        if chunk_id = "" then none
        else some ⟨chunk_id, score, rank, payload_text s chunk_id, row_id⟩)

/-- `Retriever._retrieve_dense`: empty when the index or the client is
missing; otherwise embed the query (an embedding failure propagates as an
exception) and collect the filtered search results into a dict. -/
def _retrieve_dense (s : RState) (query : String) (top_k : ℕ) (min_score : ℚ) :
    Except String (List DCand) :=
  match s.index, s.client with
  | some ix, some embed =>
    match embed query with
    | .error e => .error e
    | .ok v => .ok (buildDict (fun d => d.id) (densePairs s (ix.search v top_k) min_score))
  | _, _ => .ok []

/-- `Retriever._retrieve_bm25`: score every document, stable-sort the
`enumerate`d scores descending, truncate to `top_k`, and collect into a
dict keyed by chunk id with 1-based ranks. -/
def _retrieve_bm25 (s : RState) (query : String) (top_k : ℕ) : List BCand :=
  match s.bm25 with
  | none => []
  | some scorer =>
    let query_tokens := _tokenize query
    if query_tokens.isEmpty then []
    else
      let scores := scorer query_tokens
      let ranked := (stableSortDesc (fun p => p.2) scores.enum).take top_k
      buildDict (fun b => b.id)
        (ranked.enum.map (fun p =>
          ⟨s.bm25_ids.getD p.2.1 "", p.2.2, p.1 + 1, s.bm25_payloads.getD p.2.1 "", (p.2.1 : ℤ)⟩))

/-- `Retriever.retrieve_with_result`: query both families with width
`max(top_k, candidate_pool)`, derive the mode, fuse, gate. -/
def retrieve_with_result (s : RState) (query : String) (top_k : ℕ)
    (min_score : Option ℚ) (candidate_pool : ℕ) : Except String RetrievalResult :=
  let threshold := min_score.getD s.defaultMinScore
  match _retrieve_dense s query (max top_k candidate_pool) threshold with
  | .error e => .error e
  | .ok dense =>
    let bm25 := _retrieve_bm25 s query (max top_k candidate_pool)
    let mode :=
      if !dense.isEmpty && !bm25.isEmpty then "hybrid"
      else if !dense.isEmpty then "dense-only"
      else if !bm25.isEmpty then "bm25-only"
      else "none"
    let hits := _fuse_and_rerank query dense bm25 top_k
    let gate := _confidence_gate hits mode threshold
    .ok ⟨hits, mode, gate.1, gate.2⟩

/-- `Retriever.retrieve`: the hit list of `retrieve_with_result` with the
default candidate pool. -/
def retrieve (s : RState) (query : String) (top_k : ℕ) (min_score : Option ℚ) :
    Except String (List Hit) :=
  Except.map (fun r => r.hits) (retrieve_with_result s query top_k min_score 25)

/-- A chunk row usable for the lexical corpus (`Retriever.__init__`,
lines 113-122): stripped id and stripped text both non-empty. -/
def usableChunk (r : ChunkRow) : Bool :=
  !(r.chunk_id.trim == "") && !(r.text.trim == "")

/-- A meta row usable for the lexical fallback corpus (lines 124-132). -/
def usableMeta (r : MetaRow) : Bool :=
  !(r.id.trim == "") && !(r.text.trim == "")

/-- `Retriever.__init__` (lines 86-134), with the config, the index file
and the OpenAI/BM25 libraries abstracted into parameters: fail when both
row sources are empty; load the index only when the file exists and meta
rows are present, failing on a count mismatch; build the BM25 corpus from
chunk rows (or meta rows as fallback), discarding unusable rows; the BM25
structure is `none` when no usable row remains. -/
def initRetriever (metaRows : List MetaRow) (chunkRows : List ChunkRow)
    (indexFile : Option DenseIndex)
    (client : Option (String → Except String (List ℚ)))
    (mkBm25 : List (List String) → (List String → List ℚ))
    (min_score : ℚ) : Except String RState :=
  if metaRows.isEmpty && chunkRows.isEmpty then
    .error "No retrieval corpus found. Build chunks or FAISS metadata first."
  else
    let indexLoaded :=
      match indexFile with
      | some ix => if !metaRows.isEmpty then some ix else none
      | none => none
    match indexLoaded with
    | some ix =>
      if metaRows.length ≠ ix.ntotal then
        .error "Meta rows != FAISS vectors. Re-run src/rag/embed_index.py."
      else .ok (mkRState metaRows chunkRows (some ix) client mkBm25 min_score)
    | none => .ok (mkRState metaRows chunkRows none client mkBm25 min_score)
where
  /-- The state fields shared by both construction paths. -/
  mkRState (metaRows : List MetaRow) (chunkRows : List ChunkRow)
      (index : Option DenseIndex)
      (client : Option (String → Except String (List ℚ)))
      (mkBm25 : List (List String) → (List String → List ℚ))
      (min_score : ℚ) : RState :=
    let entries : List (String × String × List String) :=
      if !chunkRows.isEmpty then
        (chunkRows.filter usableChunk).map
          (fun r => (r.chunk_id.trim, r.text, _tokenize r.text.trim))
      else
        (metaRows.filter usableMeta).map
          (fun r => (r.id.trim, r.text, _tokenize r.text.trim))
    { metaRows := metaRows
      chunkRows := chunkRows
      index := index
      client := client
      bm25_ids := entries.map (fun e => e.1)
      bm25_payloads := entries.map (fun e => e.2.1)
      bm25 := if entries.isEmpty then none else some (mkBm25 (entries.map (fun e => e.2.2)))
      defaultMinScore := min_score }

/-! ### Library lemmas about the sorting, max and dict models -/

theorem insertDesc_perm (key : α → ℚ) (x : α) (l : List α) :
    (insertDesc key x l).Perm (x :: l) := by
  induction l with
  | nil => simp [insertDesc]
  | cons y l ih =>
    simp only [insertDesc]
    split
    · exact List.Perm.refl _
    · exact (ih.cons y).trans (List.Perm.swap x y l)

theorem foldl_insertDesc_perm (key : α → ℚ) (l : List α) :
    ∀ acc : List α, (l.foldl (fun acc x => insertDesc key x acc) acc).Perm (acc ++ l) := by
  induction l with
  | nil => intro acc; simp
  | cons x l ih =>
    intro acc
    simp only [List.foldl_cons]
    refine (ih (insertDesc key x acc)).trans ?_
    refine ((insertDesc_perm key x acc).append_right l).trans ?_
    exact List.perm_middle.symm

theorem stableSortDesc_perm (key : α → ℚ) (l : List α) :
    (stableSortDesc key l).Perm l := by
  simpa [stableSortDesc] using foldl_insertDesc_perm key l []

theorem mem_stableSortDesc (key : α → ℚ) {x : α} {l : List α} :
    x ∈ stableSortDesc key l ↔ x ∈ l :=
  (stableSortDesc_perm key l).mem_iff

theorem length_stableSortDesc (key : α → ℚ) (l : List α) :
    (stableSortDesc key l).length = l.length :=
  (stableSortDesc_perm key l).length_eq

theorem insertDesc_pairwise (key : α → ℚ) (x : α) {l : List α}
    (h : l.Pairwise (fun a b => key b ≤ key a)) :
    (insertDesc key x l).Pairwise (fun a b => key b ≤ key a) := by
  induction l with
  | nil => simp [insertDesc]
  | cons y l ih =>
    rw [List.pairwise_cons] at h
    obtain ⟨hy, hl⟩ := h
    simp only [insertDesc]
    split
    · rename_i hlt
      refine List.Pairwise.cons ?_ (List.Pairwise.cons hy hl)
      intro z hz
      rcases List.mem_cons.mp hz with rfl | hz'
      · exact le_of_lt hlt
      · exact (hy z hz').trans (le_of_lt hlt)
    · rename_i hge
      push_neg at hge
      refine List.Pairwise.cons ?_ (ih hl)
      intro z hz
      rcases List.mem_cons.mp ((insertDesc_perm key x l).mem_iff.mp hz) with rfl | hz'
      · exact hge
      · exact hy z hz'

theorem foldl_insertDesc_pairwise (key : α → ℚ) (l : List α) :
    ∀ acc : List α, acc.Pairwise (fun a b => key b ≤ key a) →
      (l.foldl (fun acc x => insertDesc key x acc) acc).Pairwise (fun a b => key b ≤ key a) := by
  induction l with
  | nil => intro acc h; simpa using h
  | cons x l ih =>
    intro acc h
    simp only [List.foldl_cons]
    exact ih _ (insertDesc_pairwise key x h)

theorem stableSortDesc_pairwise (key : α → ℚ) (l : List α) :
    (stableSortDesc key l).Pairwise (fun a b => key b ≤ key a) :=
  foldl_insertDesc_pairwise key l [] List.Pairwise.nil

theorem insertDesc_filter_ne (key : α → ℚ) (x : α) (c : ℚ) (l : List α)
    (hx : key x ≠ c) :
    (insertDesc key x l).filter (fun a => decide (key a = c)) =
      l.filter (fun a => decide (key a = c)) := by
  induction l with
  | nil => simp [insertDesc, hx]
  | cons y l ih =>
    simp only [insertDesc]
    split
    · simp [List.filter_cons, hx]
    · simp only [List.filter_cons, ih]

theorem insertDesc_filter_eq (key : α → ℚ) (x : α) (c : ℚ) {l : List α}
    (hl : l.Pairwise (fun a b => key b ≤ key a)) (hx : key x = c) :
    (insertDesc key x l).filter (fun a => decide (key a = c)) =
      l.filter (fun a => decide (key a = c)) ++ [x] := by
  induction l with
  | nil => simp [insertDesc, hx]
  | cons y l ih =>
    rw [List.pairwise_cons] at hl
    obtain ⟨hy, hl'⟩ := hl
    simp only [insertDesc]
    split
    · rename_i hlt
      have h1 : (y :: l).filter (fun a => decide (key a = c)) = [] := by
        rw [List.filter_eq_nil_iff]
        intro z hz
        simp only [decide_eq_true_eq]
        rcases List.mem_cons.mp hz with rfl | hz'
        · exact ne_of_lt (hx ▸ hlt)
        · exact ne_of_lt (lt_of_le_of_lt (hy z hz') (hx ▸ hlt))
      rw [h1, List.filter_cons_of_pos (by simp [hx]), h1]
      rfl
    · simp only [List.filter_cons, ih hl']
      split
      · simp
      · rfl

theorem foldl_insertDesc_filter (key : α → ℚ) (c : ℚ) (l : List α) :
    ∀ acc : List α, acc.Pairwise (fun a b => key b ≤ key a) →
      (l.foldl (fun acc x => insertDesc key x acc) acc).filter (fun a => decide (key a = c)) =
        acc.filter (fun a => decide (key a = c)) ++ l.filter (fun a => decide (key a = c)) := by
  induction l with
  | nil => intro acc h; simp
  | cons x l ih =>
    intro acc h
    simp only [List.foldl_cons]
    rw [ih _ (insertDesc_pairwise key x h)]
    by_cases hx : key x = c
    · rw [insertDesc_filter_eq key x c h hx, List.filter_cons_of_pos (by simp [hx])]
      simp
    · rw [insertDesc_filter_ne key x c _ hx, List.filter_cons_of_neg (by simp [hx])]

theorem stableSortDesc_filter (key : α → ℚ) (c : ℚ) (l : List α) :
    (stableSortDesc key l).filter (fun a => decide (key a = c)) =
      l.filter (fun a => decide (key a = c)) := by
  simpa [stableSortDesc] using foldl_insertDesc_filter key c l [] List.Pairwise.nil

theorem le_foldl_max (x : ℚ) (xs : List ℚ) : ∀ a : ℚ, (x ≤ a ∨ x ∈ xs) → x ≤ xs.foldl max a := by
  induction xs with
  | nil =>
    intro a h
    rcases h with h | h
    · simpa using h
    · cases h
  | cons y xs ih =>
    intro a h
    simp only [List.foldl_cons]
    apply ih
    rcases h with h | h
    · exact Or.inl (h.trans (le_max_left a y))
    · rcases List.mem_cons.mp h with rfl | h'
      · exact Or.inl (le_max_right a x)
      · exact Or.inr h'

theorem le_listMax {x : ℚ} {l : List ℚ} (h : x ∈ l) : x ≤ listMax l := by
  cases l with
  | nil => cases h
  | cons a xs =>
    rcases List.mem_cons.mp h with rfl | h'
    · exact le_foldl_max x xs x (Or.inl le_rfl)
    · exact le_foldl_max x xs a (Or.inr h')

theorem foldl_upsertBy_of_nodup (key : α → String) (l : List α) :
    ∀ acc : List α, ((acc ++ l).map key).Nodup →
      l.foldl (upsertBy key) acc = acc ++ l := by
  induction l with
  | nil => intro acc _; simp
  | cons x l ih =>
    intro acc h
    have hx : key x ∉ acc.map key := by
      intro hmem
      rw [List.map_append, List.nodup_append] at h
      exact h.2.2 hmem (by simp)
    have hany : (acc.any fun a => key a == key x) = false := by
      simp only [List.any_eq_false, beq_iff_eq]
      intro a ha hk
      exact hx (hk ▸ List.mem_map_of_mem key ha)
    have hup : upsertBy key acc x = acc ++ [x] := by
      unfold upsertBy
      rw [hany]
      simp
    simp only [List.foldl_cons, hup]
    rw [ih (acc ++ [x]) (by simpa using h)]
    simp

theorem buildDict_eq_of_nodup (key : α → String) (l : List α)
    (h : (l.map key).Nodup) : buildDict key l = l := by
  simpa [buildDict] using foldl_upsertBy_of_nodup key l [] (by simpa using h)

/-! ### Spec-side definitions (for refinement statements)

These two definitions transcribe the specification's wording, to be
compared against the code-derived definitions above. -/

/-- Spec: clamp a value to `[0,1]`. -/
def clamp01 (x : ℚ) : ℚ := max 0 (min 1 x)

/-- Spec (section 4.4 step 3): "divide by the maximum observed value in
that query; if the maximum is 0, normalized value is 0 for all". -/
def spec_norm (x m : ℚ) : ℚ := if m = 0 then 0 else x / m

/-! ### Bounds on the fusion ingredients -/

theorem _rrf_nonneg (r : ℕ) : 0 ≤ _rrf r 60 := by
  unfold _rrf
  positivity

theorem _rrf_le (r : ℕ) : _rrf r 60 ≤ 1/60 := by
  unfold _rrf
  rw [div_le_div_iff₀ (by positivity) (by norm_num)]
  have : (0:ℚ) ≤ (r : ℚ) := Nat.cast_nonneg r
  push_cast
  linarith

theorem rrf_term_nonneg (c : Cand) : 0 ≤ rrf_term c := by
  unfold rrf_term
  rcases c.dense with _ | dr <;> rcases c.bm25 with _ | br <;> simp
  · exact _rrf_nonneg br.2
  · exact _rrf_nonneg dr.2
  · exact add_nonneg (_rrf_nonneg dr.2) (_rrf_nonneg br.2)

theorem rrf_term_le (c : Cand) : rrf_term c ≤ 1/30 := by
  unfold rrf_term
  have h60 : (0:ℚ) ≤ 1/60 := by norm_num
  rcases c.dense with _ | dr <;> rcases c.bm25 with _ | br <;> simp
  · linarith [_rrf_le br.2]
  · linarith [_rrf_le dr.2]
  · linarith [_rrf_le dr.2, _rrf_le br.2]

theorem _coverage_nonneg (qt tt : List String) : 0 ≤ _coverage qt tt := by
  unfold _coverage
  split
  · exact le_refl 0
  · positivity

theorem _coverage_le_one (qt tt : List String) : _coverage qt tt ≤ 1 := by
  unfold _coverage
  split
  · norm_num
  · rename_i h
    have hne : qt ≠ [] := by simpa [List.isEmpty_iff] using h
    have hd : qt.dedup ≠ [] := by simpa [List.dedup_eq_nil] using hne
    have hpos : 0 < ((qt.dedup.length : ℚ)) := by
      have := List.length_pos.mpr hd
      exact_mod_cast this
    rw [div_le_one hpos]
    exact_mod_cast List.length_filter_le _ _

/-- Under the data-model score nonnegativity, the code's division by
`max(...) or 1.0` coincides with the spec's normalization and lies in
`[0,1]`. -/
theorem div_maxOr1_spec {x M : ℚ} (hx : 0 ≤ x) (hM : x ≤ M) :
    x / (if M = 0 then 1 else M) = spec_norm x M
    ∧ 0 ≤ x / (if M = 0 then 1 else M)
    ∧ x / (if M = 0 then 1 else M) ≤ 1 := by
  by_cases h0 : M = 0
  · have hx0 : x = 0 := le_antisymm (h0 ▸ hM) hx
    subst h0
    simp [spec_norm, hx0]
  · have hMpos : 0 < M := lt_of_le_of_ne (hx.trans hM) (Ne.symm h0)
    rw [if_neg h0, spec_norm, if_neg h0]
    exact ⟨rfl, div_nonneg hx hMpos.le, (div_le_one hMpos).mpr hM⟩

/-! ### Structure of the merged candidate union -/

theorem candDS_mergeOne (bm25 : List BCand) (d : DCand) :
    candDS (mergeOne bm25 d) = d.dense_score := by
  unfold mergeOne
  split <;> simp [candDS]

theorem candBS_mergeOne (bm25 : List BCand) (d : DCand) :
    candBS (mergeOne bm25 d) = 0 ∨ ∃ b ∈ bm25, candBS (mergeOne bm25 d) = b.bm25_score := by
  unfold mergeOne
  split
  · rename_i b hb
    exact Or.inr ⟨b, List.mem_of_find?_eq_some hb, by simp [candBS]⟩
  · exact Or.inl (by simp [candBS])

theorem candDS_bmOnly (b : BCand) : candDS (bmOnlyCand b) = 0 := by
  simp [candDS, bmOnlyCand]

theorem candBS_bmOnly (b : BCand) : candBS (bmOnlyCand b) = b.bm25_score := by
  simp [candBS, bmOnlyCand]

/-- Every candidate of the merged union carries a nonnegative dense score
and a nonnegative bm25 score, provided the two candidate dicts do. -/
theorem mergeCands_nonneg {dense : List DCand} {bm25 : List BCand}
    (hd : ∀ d ∈ dense, 0 ≤ d.dense_score) (hb : ∀ b ∈ bm25, 0 ≤ b.bm25_score) :
    ∀ c ∈ mergeCands dense bm25, 0 ≤ candDS c ∧ 0 ≤ candBS c := by
  intro c hc
  rw [mergeCands, List.mem_append] at hc
  rcases hc with hc | hc
  · obtain ⟨d, hdm, rfl⟩ := List.mem_map.mp hc
    refine ⟨by rw [candDS_mergeOne]; exact hd d hdm, ?_⟩
    rcases candBS_mergeOne bm25 d with h | ⟨b, hbm, h⟩
    · rw [h]
    · rw [h]; exact hb b hbm
  · obtain ⟨b, hbm, rfl⟩ := List.mem_map.mp hc
    rw [candDS_bmOnly, candBS_bmOnly]
    exact ⟨le_refl 0, hb b (List.mem_of_mem_filter hbm)⟩

/-- Every hit of `_fuse_and_rerank` is `hitOf` of some merged candidate. -/
theorem mem_fuse (query : String) (dense : List DCand) (bm25 : List BCand) (top_k : ℕ) :
    ∀ h ∈ _fuse_and_rerank query dense bm25 top_k,
      ∃ c ∈ mergeCands dense bm25,
        h = hitOf (_tokenize query) (maxOr1 ((mergeCands dense bm25).map candDS))
              (maxOr1 ((mergeCands dense bm25).map candBS)) c := by
  intro h hm
  unfold _fuse_and_rerank at hm
  split at hm
  · cases hm
  · have hm' := (mem_stableSortDesc (fun h : Hit => h.score)).mp (List.mem_of_mem_take hm)
    rw [scoredHits] at hm'
    obtain ⟨c, hc, rfl⟩ := List.mem_map.mp hm'
    exact ⟨c, hc, rfl⟩

/-- The per-candidate heart of claim C2: with nonnegative component
scores, the code's fused score coincides with the spec's doubly-clamped
formula and lies in `[0,1]`. -/
theorem hitOf_score_spec (qt : List String) (c : Cand) (lD lB : List ℚ)
    (hcD : candDS c ∈ lD) (hcB : candBS c ∈ lB)
    (hD0 : 0 ≤ candDS c) (hB0 : 0 ≤ candBS c) :
    (hitOf qt (maxOr1 lD) (maxOr1 lB) c).score
      = clamp01 (0.35 * clamp01 (rrf_term c)
          + 0.30 * spec_norm (candDS c) (listMax lD)
          + 0.20 * spec_norm (candBS c) (listMax lB)
          + 0.15 * (hitOf qt (maxOr1 lD) (maxOr1 lB) c).coverage)
    ∧ 0 ≤ (hitOf qt (maxOr1 lD) (maxOr1 lB) c).score
    ∧ (hitOf qt (maxOr1 lD) (maxOr1 lB) c).score ≤ 1 := by
  have hR0 := rrf_term_nonneg c
  have hR1 := rrf_term_le c
  obtain ⟨hDeq, hDn0, hDn1⟩ := div_maxOr1_spec hD0 (le_listMax hcD)
  obtain ⟨hBeq, hBn0, hBn1⟩ := div_maxOr1_spec hB0 (le_listMax hcB)
  have hC0 := _coverage_nonneg qt (_tokenize c.text)
  have hC1 := _coverage_le_one qt (_tokenize c.text)
  have hscore : (hitOf qt (maxOr1 lD) (maxOr1 lB) c).score
      = 0.35 * rrf_term c + 0.30 * (candDS c / maxOr1 lD)
        + 0.20 * (candBS c / maxOr1 lB)
        + 0.15 * _coverage qt (_tokenize c.text) := rfl
  have hcov : (hitOf qt (maxOr1 lD) (maxOr1 lB) c).coverage
      = _coverage qt (_tokenize c.text) := rfl
  have hclampR : clamp01 (rrf_term c) = rrf_term c := by
    unfold clamp01
    rw [min_eq_right (by linarith), max_eq_right hR0]
  have hT0 : 0 ≤ (hitOf qt (maxOr1 lD) (maxOr1 lB) c).score := by
    rw [hscore]
    unfold maxOr1 at *
    linarith
  have hT1 : (hitOf qt (maxOr1 lD) (maxOr1 lB) c).score ≤ 1 := by
    rw [hscore]
    unfold maxOr1 at *
    linarith
  refine ⟨?_, hT0, hT1⟩
  rw [hcov, hclampR, ← hDeq, ← hBeq]
  unfold maxOr1 at *
  rw [hscore]
  unfold clamp01
  rw [min_eq_right (by linarith), max_eq_right (by linarith)]

/-! ### Claim theorems -/

/-- C1, counterexample: the reciprocal-rank-fusion term of a candidate
with dense rank 1 (and no bm25 rank) is `1/61`, not the `1/(1+1) = 1/2`
the claim states, and a fused score observes it (`0.35 * 1/61 = 7/1220`). -/
theorem c1_rrf_uses_60_not_1 :
    rrf_term ⟨"a", some (0, 1), none, "", 0⟩ = 1/61
    ∧ (1/61 : ℚ) ≠ 1/(1+1)
    ∧ (_fuse_and_rerank "q" [⟨"a", 0, 1, "", 0⟩] [] 1).map (fun h => h.score) = [7/1220]
    ∧ ((7 : ℚ)/1220) = 0.35 * (1/61) := by
  refine ⟨by norm_num [rrf_term, _rrf], by norm_num, by with_unfolding_all rfl, by norm_num⟩

/-- C1, amended: the reciprocal-rank-fusion term equals
`1/(60+dense_rank)` when a dense rank is present (else 0) plus
`1/(60+bm25_rank)` when a bm25 rank is present (else 0) — the constant in
`_rrf` is `k = 60`, not 1. -/
theorem c1_rrf_term_amended (id t : String) (r : ℤ) (ds bs : ℚ) (dr br : ℕ) :
    rrf_term ⟨id, some (ds, dr), some (bs, br), t, r⟩ = 1/(60 + (dr : ℚ)) + 1/(60 + (br : ℚ))
    ∧ rrf_term ⟨id, some (ds, dr), none, t, r⟩ = 1/(60 + (dr : ℚ))
    ∧ rrf_term ⟨id, none, some (bs, br), t, r⟩ = 1/(60 + (br : ℚ))
    ∧ rrf_term ⟨id, none, none, t, r⟩ = 0 := by
  refine ⟨?_, ?_, ?_, ?_⟩ <;> simp [rrf_term, _rrf]

/-- C6: in hybrid mode, for a non-empty hit list passing the support check
(lexical or dense support at the top hit), a top-two score margin below
0.001 together with top coverage below 0.10 and top dense score below
`min_score + 0.03` makes the gate return `(false, "ambiguous_top_hit")`. -/
theorem c6_ambiguous_top_hit_gate (top : Hit) (rest : List Hit) (min_score : ℚ)
    (hsupport : 0.12 ≤ top.coverage ∨ 0 < top.bm25_score ∨ min_score ≤ top.dense_score)
    (hmargin : top.score - (match rest with | [] => (0:ℚ) | h2 :: _ => h2.score) < 0.001)
    (hcov : top.coverage < 0.10)
    (hds : top.dense_score < min_score + 0.03) :
    _confidence_gate (top :: rest) "hybrid" min_score = (false, "ambiguous_top_hit") := by
  simp only [_confidence_gate, String.reduceEq, if_false]
  rw [if_neg, if_pos ⟨hmargin, hcov, hds⟩]
  simp only [Bool.and_eq_true, Bool.not_eq_true', decide_eq_false_iff_not, not_and, not_not]
  intro h1
  rw [Bool.or_eq_false_iff, decide_eq_false_iff_not, decide_eq_false_iff_not] at h1
  rcases hsupport with h | h | h
  · exact absurd h h1.1
  · exact absurd h h1.2
  · exact h

/-- Witness for C6 (the spec's own acceptance example: scores 0.500 and
0.4995, top coverage 0.05, bm25 support present, dense below the floor). -/
theorem c6_ambiguous_top_hit_gate_witness :
    _confidence_gate [⟨0.5, 0, "t", "", 0, 1, 0.05⟩, ⟨0.4995, 0, "u", "", 0, 0, 0⟩]
      "hybrid" 0.5 = (false, "ambiguous_top_hit") :=
  c6_ambiguous_top_hit_gate ⟨0.5, 0, "t", "", 0, 1, 0.05⟩ [⟨0.4995, 0, "u", "", 0, 0, 0⟩] 0.5
    (Or.inr (Or.inl (by norm_num))) (by norm_num) (by norm_num) (by norm_num)

/-- C8: `retrieve_with_result` is a pure function of the retriever state
and the call arguments — two completed calls with identical inputs return
hit lists, mode, decision and reason that are identical. -/
theorem c8_retrieve_deterministic (s : RState) (query : String) (top_k : ℕ)
    (min_score : Option ℚ) (candidate_pool : ℕ) (r1 r2 : RetrievalResult)
    (h1 : retrieve_with_result s query top_k min_score candidate_pool = .ok r1)
    (h2 : retrieve_with_result s query top_k min_score candidate_pool = .ok r2) :
    r1.hits = r2.hits ∧ r1.mode = r2.mode ∧ r1.should_answer = r2.should_answer
    ∧ r1.reason = r2.reason := by
  rw [h1] at h2
  injection h2 with h
  subst h
  exact ⟨rfl, rfl, rfl, rfl⟩

/-- Witness for C8 at a concrete state. -/
theorem c8_retrieve_deterministic_witness :
    (⟨[], "none", false, "no_candidates"⟩ : RetrievalResult).hits
        = (⟨[], "none", false, "no_candidates"⟩ : RetrievalResult).hits
    ∧ (⟨[], "none", false, "no_candidates"⟩ : RetrievalResult).mode
        = (⟨[], "none", false, "no_candidates"⟩ : RetrievalResult).mode
    ∧ (⟨[], "none", false, "no_candidates"⟩ : RetrievalResult).should_answer
        = (⟨[], "none", false, "no_candidates"⟩ : RetrievalResult).should_answer
    ∧ (⟨[], "none", false, "no_candidates"⟩ : RetrievalResult).reason
        = (⟨[], "none", false, "no_candidates"⟩ : RetrievalResult).reason :=
  c8_retrieve_deterministic ⟨[], [], none, none, [], [], none, 0⟩ "q" 5 none 25
    ⟨[], "none", false, "no_candidates"⟩ ⟨[], "none", false, "no_candidates"⟩ rfl rfl

/-- C10, counterexample: a single hybrid hit meeting all three ambiguity
conditions (score 0.0005 < 0.001, coverage 0, dense 0 < 0.5 + 0.03) but
failing the support check is rejected as `low_hybrid_support`, not
`ambiguous_top_hit` — the support check runs first. -/
theorem c10_support_check_precedes_ambiguity :
    _confidence_gate [⟨0.0005, 0, "t", "", 0, 0, 0⟩] "hybrid" 0.5
      = (false, "low_hybrid_support")
    ∧ ("low_hybrid_support" : String) ≠ "ambiguous_top_hit" := by
  exact ⟨by with_unfolding_all rfl, by decide⟩

/-- C10, amended: with a single hit in hybrid mode the margin is computed
against an implicit second score of 0.0, so a single hit that passes the
support check with fused score below 0.001, coverage below 0.10 and dense
score below `min_score + 0.03` is rejected as `ambiguous_top_hit` even
though no competing hit exists. -/
theorem c10_single_hit_margin_vs_zero (top : Hit) (min_score : ℚ)
    (hsupport : 0.12 ≤ top.coverage ∨ 0 < top.bm25_score ∨ min_score ≤ top.dense_score)
    (hscore : top.score < 0.001) (hcov : top.coverage < 0.10)
    (hds : top.dense_score < min_score + 0.03) :
    _confidence_gate [top] "hybrid" min_score = (false, "ambiguous_top_hit") := by
  simp only [_confidence_gate, String.reduceEq, if_false]
  rw [if_neg, if_pos ⟨by simpa using hscore, hcov, hds⟩]
  simp only [Bool.and_eq_true, Bool.not_eq_true', decide_eq_false_iff_not, not_and, not_not]
  intro h1
  rw [Bool.or_eq_false_iff, decide_eq_false_iff_not, decide_eq_false_iff_not] at h1
  rcases hsupport with h | h | h
  · exact absurd h h1.1
  · exact absurd h h1.2
  · exact h

/-- Witness for C10 (dense support passes because `min_score = 0`). -/
theorem c10_single_hit_margin_vs_zero_witness :
    _confidence_gate [⟨0, 0, "t", "", 0, 0, 0⟩] "hybrid" 0 = (false, "ambiguous_top_hit") :=
  c10_single_hit_margin_vs_zero ⟨0, 0, "t", "", 0, 0, 0⟩ 0
    (Or.inr (Or.inr (by norm_num))) (by norm_num) (by norm_num) (by norm_num)

/-- C2: for every query and candidate of the merged union (with the
nonnegative component scores the data model guarantees: bm25 scores are
nonnegative and dense candidates passed the `min_score ≥ 0` filter), the
fused score equals `0.35*clamp01(rrf) + 0.30*dense_norm + 0.20*bm25_norm
+ 0.15*coverage` with the spec's divide-by-maximum normalizations and a
final clamp to `[0,1]` (both clamps are the identity here), and every
returned score lies in `[0,1]`. -/
theorem c2_fused_score_formula_bounds (query : String) (dense : List DCand)
    (bm25 : List BCand) (top_k : ℕ)
    (hd : ∀ d ∈ dense, 0 ≤ d.dense_score) (hb : ∀ b ∈ bm25, 0 ≤ b.bm25_score) :
    ∀ h ∈ _fuse_and_rerank query dense bm25 top_k,
      (∃ c ∈ mergeCands dense bm25,
        h = hitOf (_tokenize query) (maxOr1 ((mergeCands dense bm25).map candDS))
              (maxOr1 ((mergeCands dense bm25).map candBS)) c
        ∧ h.score = clamp01 (0.35 * clamp01 (rrf_term c)
            + 0.30 * spec_norm (candDS c) (listMax ((mergeCands dense bm25).map candDS))
            + 0.20 * spec_norm (candBS c) (listMax ((mergeCands dense bm25).map candBS))
            + 0.15 * h.coverage))
      ∧ 0 ≤ h.score ∧ h.score ≤ 1 := by
  intro h hm
  obtain ⟨c, hc, rfl⟩ := mem_fuse query dense bm25 top_k h hm
  obtain ⟨hD0, hB0⟩ := mergeCands_nonneg hd hb c hc
  have hcD : candDS c ∈ (mergeCands dense bm25).map candDS := List.mem_map_of_mem candDS hc
  have hcB : candBS c ∈ (mergeCands dense bm25).map candBS := List.mem_map_of_mem candBS hc
  obtain ⟨heq, h0, h1⟩ := hitOf_score_spec (_tokenize query) c _ _ hcD hcB hD0 hB0
  exact ⟨⟨c, hc, rfl, heq⟩, h0, h1⟩

/-- Witness for C2 at a one-candidate dense-only input
(`score = 0.35/61 + 0.30 = 373/1220`). -/
theorem c2_fused_score_formula_bounds_witness :
    0 ≤ (Hit.mk (373/1220) 0 "a" "" 1 0 0).score
    ∧ (Hit.mk (373/1220) 0 "a" "" 1 0 0).score ≤ 1 := by
  have h := c2_fused_score_formula_bounds "q" [⟨"a", 1, 1, "", 0⟩] [] 1
    (by intro d hd; rw [List.mem_singleton] at hd; subst hd; norm_num)
    (by intro b hb; cases hb)
    (Hit.mk (373/1220) 0 "a" "" 1 0 0)
    (by with_unfolding_all exact List.Mem.head _)
  exact ⟨h.2.1, h.2.2⟩

/-- C3, counterexample: a bm25-only query (`mode = "bm25-only"`) whose
single hit has coverage 1 but fused score `217/610 ≈ 0.356`: the code
applies the full weighted formula in single-family mode, it does not
reduce the fused score to coverage alone. -/
theorem c3_single_family_score_not_coverage :
    retrieve_with_result
        ⟨[], [⟨"c1", "foo bar"⟩], none, none, ["c1"], ["foo bar"], some (fun _ => [2]), 1/4⟩
        "foo" 5 none 25
      = .ok ⟨[⟨217/610, 0, "c1", "foo bar", 0, 2, 1⟩], "bm25-only", true, "ok"⟩
    ∧ ((217 : ℚ)/610) ≠ 1 := by
  exact ⟨by with_unfolding_all rfl, by norm_num⟩

/-- C3, amended: when only one family produced candidates, each hit's
fused score is still the full weighted formula with the missing family's
term vanishing — `0.35*rrf + 0.20*bm25_norm + 0.15*coverage` in bm25-only
inputs, `0.35*rrf + 0.30*dense_norm + 0.15*coverage` in dense-only
inputs — not coverage alone. -/
theorem c3_single_family_full_formula :
    (∀ (query : String) (bm25 : List BCand) (top_k : ℕ),
      ∀ h ∈ _fuse_and_rerank query [] bm25 top_k,
        ∃ b ∈ bm25,
          h.dense_score = 0
          ∧ h.bm25_score = b.bm25_score
          ∧ h.score = 0.35 * _rrf b.bm25_rank 60
              + 0.20 * (b.bm25_score / maxOr1 ((mergeCands [] bm25).map candBS))
              + 0.15 * h.coverage)
    ∧ (∀ (query : String) (dense : List DCand) (top_k : ℕ),
      ∀ h ∈ _fuse_and_rerank query dense [] top_k,
        ∃ d ∈ dense,
          h.bm25_score = 0
          ∧ h.dense_score = d.dense_score
          ∧ h.score = 0.35 * _rrf d.dense_rank 60
              + 0.30 * (d.dense_score / maxOr1 ((mergeCands dense []).map candDS))
              + 0.15 * h.coverage) := by
  constructor
  · intro query bm25 top_k h hm
    obtain ⟨c, hc, rfl⟩ := mem_fuse query [] bm25 top_k h hm
    have hc' : c ∈ (bm25.filter (fun b => ([] : List DCand).all (fun d => !(d.id == b.id)))).map bmOnlyCand := by
      simpa [mergeCands] using hc
    obtain ⟨b, hb, rfl⟩ := List.mem_map.mp hc'
    have hbm : b ∈ bm25 := List.mem_of_mem_filter hb
    refine ⟨b, hbm, ?_, ?_, ?_⟩
    · show candDS (bmOnlyCand b) = 0
      exact candDS_bmOnly b
    · show candBS (bmOnlyCand b) = b.bm25_score
      exact candBS_bmOnly b
    · show 0.35 * rrf_term (bmOnlyCand b) + 0.30 * (candDS (bmOnlyCand b) / _)
          + 0.20 * (candBS (bmOnlyCand b) / _) + 0.15 * _ = _
      rw [candDS_bmOnly, candBS_bmOnly]
      have hr : rrf_term (bmOnlyCand b) = _rrf b.bm25_rank 60 := by
        simp [rrf_term, bmOnlyCand]
      rw [hr, zero_div, mul_zero, add_zero]
      rfl
  · intro query dense top_k h hm
    obtain ⟨c, hc, rfl⟩ := mem_fuse query dense [] top_k h hm
    have hc' : c ∈ dense.map (mergeOne []) := by
      simpa [mergeCands] using hc
    obtain ⟨d, hd, rfl⟩ := List.mem_map.mp hc'
    have hbs : candBS (mergeOne [] d) = 0 := by
      simp [mergeOne, candBS]
    refine ⟨d, hd, ?_, ?_, ?_⟩
    · show candBS (mergeOne [] d) = 0
      exact hbs
    · show candDS (mergeOne [] d) = d.dense_score
      exact candDS_mergeOne [] d
    · show 0.35 * rrf_term (mergeOne [] d) + 0.30 * (candDS (mergeOne [] d) / _)
          + 0.20 * (candBS (mergeOne [] d) / _) + 0.15 * _ = _
      rw [candDS_mergeOne, hbs]
      have hr : rrf_term (mergeOne [] d) = _rrf d.dense_rank 60 := by
        simp [rrf_term, mergeOne]
      rw [hr, zero_div, mul_zero, add_zero]
      rfl

/-- Witness for C3: the bm25-only half at the counterexample input and
the dense-only half at a one-candidate dense input
(`score = 0.35/61 + 0.30 = 373/1220`). -/
theorem c3_single_family_full_formula_witness :
    (∃ b ∈ [BCand.mk "c1" 2 1 "foo bar" 0],
      (Hit.mk (217/610) 0 "c1" "foo bar" 0 2 1).dense_score = 0
      ∧ (Hit.mk (217/610) 0 "c1" "foo bar" 0 2 1).bm25_score = b.bm25_score
      ∧ (Hit.mk (217/610) 0 "c1" "foo bar" 0 2 1).score = 0.35 * _rrf b.bm25_rank 60
          + 0.20 * (b.bm25_score / maxOr1 ((mergeCands [] [BCand.mk "c1" 2 1 "foo bar" 0]).map candBS))
          + 0.15 * (Hit.mk (217/610) 0 "c1" "foo bar" 0 2 1).coverage)
    ∧ (∃ d ∈ [DCand.mk "a" 1 1 "" 0],
      (Hit.mk (373/1220) 0 "a" "" 1 0 0).bm25_score = 0
      ∧ (Hit.mk (373/1220) 0 "a" "" 1 0 0).dense_score = d.dense_score
      ∧ (Hit.mk (373/1220) 0 "a" "" 1 0 0).score = 0.35 * _rrf d.dense_rank 60
          + 0.30 * (d.dense_score / maxOr1 ((mergeCands [DCand.mk "a" 1 1 "" 0] []).map candDS))
          + 0.15 * (Hit.mk (373/1220) 0 "a" "" 1 0 0).coverage) :=
  ⟨c3_single_family_full_formula.1 "foo" [BCand.mk "c1" 2 1 "foo bar" 0] 5
      (Hit.mk (217/610) 0 "c1" "foo bar" 0 2 1)
      (by with_unfolding_all exact List.Mem.head _),
   c3_single_family_full_formula.2 "q" [DCand.mk "a" 1 1 "" 0] 2
      (Hit.mk (373/1220) 0 "a" "" 1 0 0)
      (by with_unfolding_all exact List.Mem.head _)⟩

/-- C4, counterexample: with the index loaded and a client present, a
failing embedding call is *not* caught — the exception escapes
`retrieve_with_result`, so the failure is raised to the caller instead of
degrading the mode. -/
theorem c4_embed_failure_raises :
    Except.bind
        (initRetriever [⟨"m1", "hello"⟩] [] (some ⟨1, fun _ _ => [(1, 0)]⟩)
          (some (fun _ => .error "boom")) (fun _ _ => [0]) 0)
        (fun s => retrieve_with_result s "q" 5 none 25)
      = .error "boom" := by
  with_unfolding_all rfl

/-- C4, amended: when the dense index or the embedding client is
*unavailable* (not constructed), dense retrieval yields zero candidates
and the query completes with a degraded mode (`bm25-only` or `none`); but
a failure of the embedding call itself propagates (see the
counterexample). -/
theorem c4_unavailable_dense_degrades (s : RState) (query : String) (K top_k pool : ℕ)
    (t : ℚ) (ms : Option ℚ)
    (h : s.index = none ∨ s.client = none) :
    _retrieve_dense s query K t = .ok []
    ∧ ((retrieve_with_result s query top_k ms pool).map (fun r => r.mode) = .ok "bm25-only"
       ∨ (retrieve_with_result s query top_k ms pool).map (fun r => r.mode) = .ok "none") := by
  have hd : ∀ (K' : ℕ) (t' : ℚ), _retrieve_dense s query K' t' = .ok [] := by
    intro K' t'
    unfold _retrieve_dense
    rcases h with h | h
    · rw [h]
    · rw [h]
      rcases s.index with _ | ix <;> rfl
  refine ⟨hd K t, ?_⟩
  unfold retrieve_with_result
  simp only [hd]
  by_cases hb : (_retrieve_bm25 s query (max top_k pool)).isEmpty
  · right
    simp [hb, Except.map]
  · left
    simp [hb, Except.map]

/-- Witness for C4 at a state with no index and no client. -/
theorem c4_unavailable_dense_degrades_witness :
    _retrieve_dense ⟨[], [], none, none, [], [], none, 0⟩ "q" 25 0 = .ok []
    ∧ ((retrieve_with_result ⟨[], [], none, none, [], [], none, 0⟩ "q" 5 none 25).map
          (fun r => r.mode) = .ok "bm25-only"
       ∨ (retrieve_with_result ⟨[], [], none, none, [], [], none, 0⟩ "q" 5 none 25).map
          (fun r => r.mode) = .ok "none") :=
  c4_unavailable_dense_degrades ⟨[], [], none, none, [], [], none, 0⟩ "q" 25 5 25 0 none
    (Or.inl rfl)

/-- C7, counterexample: a chunk source whose only row has an empty id is
unusable, yet construction succeeds (returning an engine with no BM25
structure) — the corpus-empty error fires only when *both* row sources
are empty, not when zero usable chunks are found. -/
theorem c7_unusable_rows_still_construct :
    initRetriever [] [⟨"", "hi"⟩] none none (fun _ _ => []) (1/4)
      = .ok ⟨[], [⟨"", "hi"⟩], none, none, [], [], none, 1/4⟩ := by
  with_unfolding_all rfl

/-- C7, amended: construction fails with the no-corpus error exactly when
both the meta and chunk row sources contain zero rows; rows with empty
(stripped) id or text are merely discarded from the lexical corpus but
still count as present, so an all-unusable chunk source constructs an
engine whose BM25 structure is `none`. -/
theorem c7_corpus_error_both_sources_empty (idx : Option DenseIndex)
    (client : Option (String → Except String (List ℚ)))
    (mk : List (List String) → (List String → List ℚ)) (ms : ℚ)
    (chunkRows : List ChunkRow)
    (hne : chunkRows ≠ [])
    (hbad : ∀ r ∈ chunkRows, r.chunk_id.trim = "" ∨ r.text.trim = "") :
    initRetriever [] [] idx client mk ms
      = .error "No retrieval corpus found. Build chunks or FAISS metadata first."
    ∧ initRetriever [] chunkRows none client mk ms
      = .ok ⟨[], chunkRows, none, client, [], [], none, ms⟩ := by
  have hce : chunkRows.isEmpty = false := by
    cases chunkRows with
    | nil => exact absurd rfl hne
    | cons a l => rfl
  have hfil : chunkRows.filter usableChunk = [] := by
    rw [List.filter_eq_nil_iff]
    intro r hr
    rcases hbad r hr with h | h <;> simp [usableChunk, h]
  constructor
  · rfl
  · unfold initRetriever initRetriever.mkRState
    rw [hce, hfil]
    simp

/-- C5, counterexample: a hybrid query producing two hits tied at
`7/1220`. The second returned hit ("b") is the BM25-rank-1 candidate and
the first ("a") is the dense candidate with no BM25 rank at all, so ties
are *not* broken by original BM25 rank first — the stable sort keeps the
merge insertion order (dense candidates before bm25-only candidates). -/
theorem c5_tie_order_counterexample :
    retrieve_with_result
        ⟨[⟨"a", ""⟩], [], some ⟨1, fun _ _ => [(0, 0)]⟩, some (fun _ => .ok []), ["b"], [""],
          some (fun _ => [0]), 0⟩
        "q" 5 (some 0) 25
      = .ok ⟨[⟨7/1220, 0, "a", "", 0, 0, 0⟩, ⟨7/1220, 0, "b", "", 0, 0, 0⟩],
             "hybrid", false, "ambiguous_top_hit"⟩ := by
  with_unfolding_all rfl

/-- C5, amended: the returned hits are sorted by fused score descending
and truncated to at most `top_k`; ties are kept in the scored list's
order (the merge insertion order: dense candidates in dense-rank order,
then bm25-only candidates in bm25-rank order), expressed by the stability
equation on every score class. -/
theorem c5_sorted_stable_truncated (query : String) (dense : List DCand)
    (bm25 : List BCand) (top_k : ℕ) :
    (_fuse_and_rerank query dense bm25 top_k).Pairwise (fun a b => b.score ≤ a.score)
    ∧ (_fuse_and_rerank query dense bm25 top_k).length ≤ top_k
    ∧ ∀ c : ℚ,
        (stableSortDesc (fun h : Hit => h.score) (scoredHits query dense bm25)).filter
            (fun h => decide (h.score = c))
          = (scoredHits query dense bm25).filter (fun h => decide (h.score = c)) := by
  refine ⟨?_, ?_, ?_⟩
  · unfold _fuse_and_rerank
    split
    · exact List.Pairwise.nil
    · exact (stableSortDesc_pairwise _ _).sublist (List.take_sublist _ _)
  · unfold _fuse_and_rerank
    split
    · simp
    · exact List.length_take_le _ _
  · intro c
    exact stableSortDesc_filter _ c _

/-- Mapping a function of the element over an enumeration forgets the
counter. -/
theorem enumFrom_map_snd_comp (g : β → γ) (l : List β) :
    ∀ k : ℕ, (List.enumFrom k l).map (fun p => g p.2) = l.map g := by
  induction l with
  | nil => intro k; rfl
  | cons x l ih => intro k; simp [List.enumFrom, ih]

/-- C9: with a non-empty BM25 structure over distinct chunk ids and a
query with at least one token, lexical retrieval returns exactly
`min(top_k, corpus size)` candidates — zero BM25 scores are not filtered
out — and consequently such a query never completes with mode "none". -/
theorem c9_bm25_returns_min_topk_corpus (s : RState) (query : String) (K : ℕ)
    (f : List String → List ℚ)
    (hf : s.bm25 = some f)
    (hlen : (f (_tokenize query)).length = s.bm25_ids.length)
    (hnd : s.bm25_ids.Nodup)
    (hq : (_tokenize query).isEmpty = false) :
    (_retrieve_bm25 s query K).length = min K s.bm25_ids.length
    ∧ (∀ (top_k pool : ℕ) (ms : Option ℚ) (r : RetrievalResult),
        1 ≤ max top_k pool → s.bm25_ids ≠ [] →
        retrieve_with_result s query top_k ms pool = .ok r → r.mode ≠ "none") := by
  have hmain : ∀ K' : ℕ, (_retrieve_bm25 s query K').length = min K' s.bm25_ids.length := by
    intro K'
    unfold _retrieve_bm25
    rw [hf]
    simp only [hq, Bool.false_eq_true, if_false]
    set qt := _tokenize query with hqt
    set sorted := stableSortDesc (fun p : ℕ × ℚ => p.2) (f qt).enum with hsorted
    set ranked := sorted.take K' with hranked
    have hperm : sorted.Perm (f qt).enum := stableSortDesc_perm _ _
    have hfstperm : (sorted.map Prod.fst).Perm (List.range (f qt).length) := by
      have := hperm.map Prod.fst
      rwa [List.enum_map_fst] at this
    have hfst_nodup : (sorted.map Prod.fst).Nodup :=
      hfstperm.nodup_iff.mpr (List.nodup_range _)
    have hrnodup : (ranked.map Prod.fst).Nodup := by
      rw [hranked, List.map_take]
      exact List.Nodup.sublist (List.take_sublist _ _) hfst_nodup
    have hmem_lt : ∀ p ∈ ranked, p.1 < s.bm25_ids.length := by
      intro p hp
      have hp2 : p ∈ (f qt).enum := hperm.mem_iff.mp (List.mem_of_mem_take hp)
      have h3 : p.1 ∈ (f qt).enum.map Prod.fst := List.mem_map_of_mem Prod.fst hp2
      rw [List.enum_map_fst, List.mem_range, hlen] at h3
      exact h3
    have hidnodup : (ranked.map (fun p => s.bm25_ids.getD p.1 "")).Nodup := by
      refine List.Nodup.map_on ?_ (List.Nodup.of_map Prod.fst hrnodup)
      intro x hx y hy hxy
      rw [List.getD_eq_getElem _ _ (hmem_lt x hx), List.getD_eq_getElem _ _ (hmem_lt y hy)] at hxy
      have h1 : x.1 = y.1 := (List.Nodup.getElem_inj_iff hnd).mp hxy
      exact List.inj_on_of_nodup_map hrnodup hx hy h1
    have hids : ((ranked.enum.map (fun p =>
          BCand.mk (s.bm25_ids.getD p.2.1 "") p.2.2 (p.1 + 1) (s.bm25_payloads.getD p.2.1 "") (p.2.1 : ℤ))).map
            (fun b => b.id))
        = ranked.map (fun p => s.bm25_ids.getD p.1 "") := by
      rw [List.map_map, List.enum]
      exact enumFrom_map_snd_comp (fun q => s.bm25_ids.getD q.1 "") ranked 0
    rw [buildDict_eq_of_nodup _ _ (by rw [hids]; exact hidnodup)]
    rw [List.length_map, List.enum_length, hranked, List.length_take,
      length_stableSortDesc, List.enum_length, hlen]
  refine ⟨hmain K, ?_⟩
  intro top_k pool ms r hK hne hr
  have hlen' := hmain (max top_k pool)
  have hbm : (_retrieve_bm25 s query (max top_k pool)).isEmpty = false := by
    rw [List.isEmpty_eq_false_iff_exists_mem]
    have hpos : 0 < (_retrieve_bm25 s query (max top_k pool)).length := by
      rw [hlen']
      exact lt_min hK (List.length_pos.mpr hne)
    exact List.exists_mem_of_length_pos hpos
  simp only [retrieve_with_result] at hr
  rcases hdr : _retrieve_dense s query (max top_k pool) (ms.getD s.defaultMinScore) with e | dense
  · rw [hdr] at hr
    cases hr
  · rw [hdr] at hr
    simp only [hbm, Bool.not_false, Bool.and_true] at hr
    rcases hde : dense.isEmpty with _ | _ <;> rw [hde] at hr <;>
      simp only [Bool.not_true, Bool.not_false, if_true, if_false] at hr <;>
      injection hr with hr' <;> rw [← hr'] <;> simp

/-- Witness for C9: a two-document corpus and `top_k = 3` yield
`min 3 2 = 2` candidates. -/
theorem c9_bm25_returns_min_topk_corpus_witness :
    (_retrieve_bm25 ⟨[], [], none, none, ["x", "y"], ["", ""], some (fun _ => [0, 1]), 0⟩
        "foo" 3).length = min 3 2 :=
  (c9_bm25_returns_min_topk_corpus
    ⟨[], [], none, none, ["x", "y"], ["", ""], some (fun _ => [0, 1]), 0⟩
    "foo" 3 (fun _ => [0, 1]) rfl rfl (by decide) (by decide)).1

/-- Witness for C7 at concrete inputs. -/
theorem c7_corpus_error_both_sources_empty_witness :
    initRetriever [] [] none none (fun _ _ => []) 0
      = .error "No retrieval corpus found. Build chunks or FAISS metadata first."
    ∧ initRetriever [] [⟨"", "x"⟩] none none (fun _ _ => []) 0
      = .ok ⟨[], [⟨"", "x"⟩], none, none, [], [], none, 0⟩ :=
  c7_corpus_error_both_sources_empty none none (fun _ _ => []) 0 [⟨"", "x"⟩]
    (by simp)
    (by intro r hr; rw [List.mem_singleton] at hr; subst hr
        exact Or.inl (by with_unfolding_all rfl))
